import Mathlib

/-!
Verification model of the voice-agent turn loop (src/main.py).

Python strings are modelled as lists of Unicode code points (`PyStr`).
External effects (microphone, transcription service, stdin, streaming chat
completion, interrupts) are modelled by per-iteration event records; the
controller functions below are direct translations of the corresponding
Python methods of `VoiceAgent`.
-/

/-- Python strings, modelled as lists of Unicode code points. -/
abbrev PyStr := List Nat

/-- Code points removed by Python str.strip(): tab (9) through CR (13) and space (32). -/
def isWs (c : Nat) : Bool := decide (c = 32 ∨ (9 ≤ c ∧ c ≤ 13))

/-- Python str.strip(): drop leading and trailing whitespace. -/
def pyStrip (s : PyStr) : PyStr := (s.dropWhile isWs).rdropWhile isWs

/-- ASCII lowering of one code point, modelling Python str.lower(). -/
def lowerChar (c : Nat) : Nat := if 65 ≤ c ∧ c ≤ 90 then c + 32 else c

/-- Python str.lower() on a whole string. -/
def pyLower (s : PyStr) : PyStr := s.map lowerChar

/-- Helper injecting a Lean string literal into the code-point model. -/
def pyOf (s : String) : PyStr := s.toList.map Char.toNat

/-- Message roles used in the conversation history (src/main.py appends
dicts with role system, user or assistant). -/
inductive Role
  | system
  | user
  | assistant
  deriving DecidableEq

/-- One history entry: a role-tagged message. -/
structure Message where
  role : Role
  content : PyStr
  deriving DecidableEq

/-- The fields of AgentConfig (src/main.py lines 15-28) that the turn loop
reads: text_only, max_turns, exit_phrases, system_prompt. -/
structure AgentConfig where
  textOnly : Bool
  maxTurns : Option Nat
  exitPhrases : List PyStr
  systemPrompt : Option PyStr
  deriving DecidableEq

/-- Python str.split(",") helper: returns (first field, remaining fields);
code point 44 is the comma. -/
def splitCommaAux : PyStr → PyStr × List PyStr
  | [] => ([], [])
  | c :: rest =>
    let r := splitCommaAux rest
    if c == 44 then ([], r.1 :: r.2) else (c :: r.1, r.2)

/-- Python str.split(","): every comma separates two fields. -/
def splitComma (s : PyStr) : List PyStr :=
  (splitCommaAux s).1 :: (splitCommaAux s).2

/-- Exit-phrase processing of AgentConfig.from_env (src/main.py lines 68-73):
split the raw value at commas, keep fields whose strip() is nonempty as
strip().lower(), and fall back to exit,quit,bye when nothing remains. -/
def parseExitPhrases (raw : PyStr) : List PyStr :=
  let ps := ((splitComma raw).filter fun s => !(pyStrip s).isEmpty).map fun s => pyLower (pyStrip s)
  if ps.isEmpty then [pyOf "exit", pyOf "quit", pyOf "bye"] else ps

/-- Behaviour of one transcription request (VoiceAgent.transcribe): the
service either faults (any exception is caught, returning the empty string)
or returns text, which the method strips. -/
inductive TranscribeEvent
  | svcFail
  | svcText (s : PyStr)
  deriving DecidableEq

/-- Behaviour of one voice-capture attempt (VoiceAgent.record_audio plus the
following transcription): the device faults (record_audio returns None), a
clip is recorded and then transcribed, or a KeyboardInterrupt arrives and is
re-raised. -/
inductive VoiceEvent
  | recFail
  | recOk (t : TranscribeEvent)
  | interrupt
  deriving DecidableEq

/-- Behaviour of one input() call in text mode: a line is read, the stream
reports end-of-file, some other read error occurs, or a KeyboardInterrupt
arrives and is re-raised. -/
inductive TextEvent
  | line (s : PyStr)
  | eof
  | readErr
  | interrupt
  deriving DecidableEq

/-- Behaviour of one streaming completion call (VoiceAgent.chat): the
transport faults after yielding some fragments, or the stream completes
with a list of fragments. -/
inductive CompletionEvent
  | fail (partsSoFar : List PyStr)
  | ok (parts : List PyStr)
  deriving DecidableEq

/-- Environment behaviour available to one loop iteration of VoiceAgent.run:
how input() would behave, how the voice path would behave, and how the
completion call would behave. -/
structure IterEvent where
  tev : TextEvent
  vev : VoiceEvent
  cev : CompletionEvent
  deriving DecidableEq

/-- VoiceAgent.transcribe (src/main.py lines 137-159): returns the stripped
transcript on success, and the empty string when the request fails. -/
def transcribe : TranscribeEvent → PyStr
  | TranscribeEvent.svcFail => []
  | TranscribeEvent.svcText s => pyStrip s

/-- Result of VoiceAgent.capture_user_input: an uncaught KeyboardInterrupt,
None (end of input), or a text value. -/
inductive CaptureResult
  | interrupted
  | closed
  | text (s : PyStr)
  deriving DecidableEq

/-- VoiceAgent.capture_user_input (src/main.py lines 200-219). In text mode:
input().strip(), None on EOFError, empty string on other read errors, and
KeyboardInterrupt re-raised. In voice mode: empty string when record_audio
returns None, otherwise the transcription result; KeyboardInterrupt from
record_audio is re-raised. -/
def capture_user_input (textOnly : Bool) (tev : TextEvent) (vev : VoiceEvent) : CaptureResult :=
  if textOnly then
    match tev with
    | TextEvent.line s => CaptureResult.text (pyStrip s)
    | TextEvent.eof => CaptureResult.closed
    | TextEvent.readErr => CaptureResult.text []
    | TextEvent.interrupt => CaptureResult.interrupted
  else
    match vev with
    | VoiceEvent.interrupt => CaptureResult.interrupted
    | VoiceEvent.recFail => CaptureResult.text []
    | VoiceEvent.recOk t => CaptureResult.text (transcribe t)

/-- Accumulation of streamed fragments in VoiceAgent.chat: empty deltas are
skipped, the rest are joined. -/
def joinParts (parts : List PyStr) : PyStr :=
  (parts.filter fun p => !p.isEmpty).flatten

/-- VoiceAgent.chat (src/main.py lines 161-189): append the user message; on
a transport fault pop it and return the empty string; on success strip the
joined fragments, append an assistant message only when the reply is
nonempty, and return the reply. The result is (new history, reply). -/
def chat (hist : List Message) (userText : PyStr) (ev : CompletionEvent) : List Message × PyStr :=
  let h1 := hist ++ [⟨Role.user, userText⟩]
  match ev with
  | CompletionEvent.fail _ => (h1.dropLast, [])
  | CompletionEvent.ok parts =>
    let reply := pyStrip (joinParts parts)
    if reply.isEmpty then (h1, [])
    else (h1 ++ [⟨Role.assistant, reply⟩], reply)

/-- Why the loop in VoiceAgent.run stopped. scriptEnd means the modelled
event script was exhausted while the loop would have kept running. -/
inductive ExitReason
  | inputClosed
  | userExit
  | turnLimit
  | scriptEnd
  deriving DecidableEq

/-- Result of VoiceAgent.run: either the method returns (with final history,
final turn count and the reason the loop stopped), or a KeyboardInterrupt
propagates out of it uncaught. -/
inductive RunOutcome
  | finished (history : List Message) (turns : Nat) (reason : ExitReason)
  | raisedInterrupt (history : List Message) (turns : Nat)
  deriving DecidableEq

/-- Final history of a run outcome. -/
def RunOutcome.history : RunOutcome → List Message
  | RunOutcome.finished h _ _ => h
  | RunOutcome.raisedInterrupt h _ => h

/-- Final turn count of a run outcome. -/
def RunOutcome.turns : RunOutcome → Nat
  | RunOutcome.finished _ t _ => t
  | RunOutcome.raisedInterrupt _ t => t

/-- The while condition of VoiceAgent.run (line 231):
max_turns is None or turns below max_turns. -/
def continueLoop : Option Nat → Nat → Bool
  | none, _ => true
  | some n, t => t < n

/-- The loop of VoiceAgent.run (src/main.py lines 230-246), driven by a
finite script of iteration events. Each iteration: check the while
condition; capture input (None breaks the loop, KeyboardInterrupt
propagates); strip it; skip empty text; break on an exit phrase; otherwise
call chat, skip the turn when the reply is empty, and count it otherwise. -/
def runLoop (cfg : AgentConfig) : List Message → Nat → List IterEvent → RunOutcome
  | hist, turns, [] =>
    if continueLoop cfg.maxTurns turns then RunOutcome.finished hist turns ExitReason.scriptEnd
    else RunOutcome.finished hist turns ExitReason.turnLimit
  | hist, turns, ev :: rest =>
    if continueLoop cfg.maxTurns turns then
      match capture_user_input cfg.textOnly ev.tev ev.vev with
      | CaptureResult.interrupted => RunOutcome.raisedInterrupt hist turns
      | CaptureResult.closed => RunOutcome.finished hist turns ExitReason.inputClosed
      | CaptureResult.text s0 =>
        let s := pyStrip s0
        if s.isEmpty then runLoop cfg hist turns rest
        else if pyLower s ∈ cfg.exitPhrases then RunOutcome.finished hist turns ExitReason.userExit
        else
          let r := chat hist s ev.cev
          if r.2.isEmpty then runLoop cfg r.1 turns rest
          else runLoop cfg r.1 (turns + 1) rest
    else RunOutcome.finished hist turns ExitReason.turnLimit

/-- History created by VoiceAgent.init (src/main.py lines 97-99): empty, or
seeded with one system message when a nonempty system prompt is configured
(Python truthiness makes the empty string falsy). -/
def initHistory (cfg : AgentConfig) : List Message :=
  match cfg.systemPrompt with
  | some p => if p.isEmpty then [] else [⟨Role.system, p⟩]
  | none => []

/-- How main (src/main.py lines 258-270) ends: a normal return, or the
KeyboardInterrupt branch that logs a goodbye and returns. -/
inductive MainResult
  | normalReturn
  | interruptedGoodbye
  deriving DecidableEq

/-- main (src/main.py lines 266-270): run the agent from the initial
history; a KeyboardInterrupt escaping run() is caught here. -/
def mainModel (cfg : AgentConfig) (evs : List IterEvent) : MainResult :=
  match runLoop cfg (initHistory cfg) 0 evs with
  | RunOutcome.raisedInterrupt _ _ => MainResult.interruptedGoodbye
  | RunOutcome.finished _ _ _ => MainResult.normalReturn

/-- Truncation toward zero, as numpy astype(int16) applies to floats. -/
def truncZ (q : ℚ) : Int := if 0 ≤ q then ⌊q⌋ else ⌈q⌉

/-- One PCM sample of VoiceAgent.transcribe line 145: the float sample
scaled by 32767 and truncated to a signed 16-bit integer. -/
def encodeSample (x : ℚ) : Int := truncZ (x * 32767)

/-- Decoding one 16-bit PCM sample back to a float sample. -/
def decodeSample (i : Int) : ℚ := (i : ℚ) / 32767

/-- Little-endian two-byte encoding of a signed 16-bit value, as produced
by numpy int16 tobytes(). -/
def packInt16 (i : Int) : List Nat :=
  [((i % 65536).toNat) % 256, ((i % 65536).toNat) / 256]

/-- Frame payload written by wave writeframes in VoiceAgent.transcribe:
every sample scaled, truncated and packed little-endian. -/
def encodePCM (xs : List ℚ) : List Nat := (xs.map encodeSample).flatMap packInt16

/-- Reading one little-endian byte pair back as a signed 16-bit value. -/
def unpackInt16 (lo hi : Nat) : Int :=
  if lo + 256 * hi < 32768 then ((lo + 256 * hi : Nat) : Int)
  else ((lo + 256 * hi : Nat) : Int) - 65536

/-- Decoding a 16-bit mono PCM frame payload into samples. -/
def decodePCM : List Nat → List Int
  | lo :: hi :: rest => unpackInt16 lo hi :: decodePCM rest
  | _ => []

/-- No two adjacent messages in a history are both user messages. -/
def NoConsecUsers (h : List Message) : Prop :=
  List.Chain' (fun a b => ¬(a.role = Role.user ∧ b.role = Role.user)) h

instance (h : List Message) : Decidable (NoConsecUsers h) :=
  inferInstanceAs (Decidable (List.Chain' _ h))

/-- Well-formed history: no two adjacent user messages, and the last
message (when any) is not a user message. -/
def GoodHistory (h : List Message) : Prop :=
  NoConsecUsers h ∧ ∀ m ∈ h.getLast?, m.role ≠ Role.user

/-! ## String lemmas -/

theorem lowerChar_isWs (c : Nat) : isWs (lowerChar c) = isWs c := by
  unfold isWs lowerChar
  split
  · next h => exact decide_eq_decide.mpr (by omega)
  · rfl

theorem lowerChar_idem (c : Nat) : lowerChar (lowerChar c) = lowerChar c := by
  unfold lowerChar
  split
  · next h => rw [if_neg (by omega)]
  · rfl

theorem pyLower_idem (s : PyStr) : pyLower (pyLower s) = pyLower s := by
  unfold pyLower
  rw [List.map_map]
  exact List.map_congr_left fun c _ => lowerChar_idem c

theorem dropWhile_append_all {α : Type} {p : α → Bool} (a b : List α)
    (h : ∀ c ∈ a, p c = true) : (a ++ b).dropWhile p = b.dropWhile p := by
  induction a with
  | nil => rfl
  | cons x xs ih =>
    rw [List.cons_append, List.dropWhile_cons_of_pos (h x (by simp))]
    exact ih fun c hc => h c (by simp [hc])

theorem rdropWhile_append_all {α : Type} {p : α → Bool} (v b : List α)
    (h : ∀ c ∈ b, p c = true) : (v ++ b).rdropWhile p = v.rdropWhile p := by
  induction b using List.reverseRecOn with
  | nil => simp
  | append_singleton xs x ih =>
    rw [← List.append_assoc, List.rdropWhile_concat_pos p (v ++ xs) x (by simp [h x])]
    exact ih fun c hc => h c (by simp [hc])

theorem pyStrip_nil : pyStrip [] = [] := rfl

theorem head?_dropWhile_false {α : Type} (p : α → Bool) (l : List α) {a : α}
    (h : (l.dropWhile p).head? = some a) : p a = false := by
  induction l with
  | nil => simp at h
  | cons x xs ih =>
    rw [List.dropWhile_cons] at h
    split at h
    · exact ih h
    · next hx =>
      simp only [List.head?_cons, Option.some.injEq] at h
      rw [← h]
      exact Bool.not_eq_true _ |>.mp hx

theorem dropWhile_eq_self_of_pyStrip {s : PyStr} (h : pyStrip s = s) :
    s.dropWhile isWs = s := by
  have hpre : (pyStrip s).length ≤ (s.dropWhile isWs).length :=
    (List.rdropWhile_prefix isWs (s.dropWhile isWs)).length_le
  rw [h] at hpre
  have hsuf : s.dropWhile isWs <:+ s := List.dropWhile_suffix isWs
  exact hsuf.eq_of_length (le_antisymm hsuf.length_le hpre)

theorem rdropWhile_eq_self_of_pyStrip {s : PyStr} (h : pyStrip s = s) :
    s.rdropWhile isWs = s := by
  have h1 := dropWhile_eq_self_of_pyStrip h
  have : pyStrip s = s.rdropWhile isWs := by rw [pyStrip, h1]
  rw [← this, h]

theorem pyStrip_head_not_ws {s : PyStr} (h : pyStrip s = s) (hs : s ≠ []) :
    isWs (s.head hs) = false := by
  have h1 := dropWhile_eq_self_of_pyStrip h
  apply head?_dropWhile_false isWs s
  rw [h1, List.head?_eq_head hs]

theorem pyStrip_getLast_not_ws {s : PyStr} (h : pyStrip s = s) (hs : s ≠ []) :
    isWs (s.getLast hs) = false := by
  have h1 := rdropWhile_eq_self_of_pyStrip h
  have h2 := List.rdropWhile_eq_self_iff.mp h1 hs
  exact Bool.not_eq_true _ |>.mp h2

theorem pyStrip_sandwich (w1 v w2 : PyStr)
    (hw1 : ∀ c ∈ w1, isWs c = true) (hw2 : ∀ c ∈ w2, isWs c = true)
    (hv : v ≠ []) (hh : isWs (v.head hv) = false) (hl : isWs (v.getLast hv) = false) :
    pyStrip (w1 ++ v ++ w2) = v := by
  unfold pyStrip
  rw [List.append_assoc, dropWhile_append_all w1 (v ++ w2) hw1]
  have h1 : (v ++ w2).dropWhile isWs = v ++ w2 := by
    cases v with
    | nil => exact absurd rfl hv
    | cons x xs =>
      rw [List.cons_append, List.dropWhile_cons_of_neg]
      rw [show (x :: xs).head hv = x from rfl] at hh
      simp [hh]
  rw [h1, rdropWhile_append_all v w2 hw2]
  exact List.rdropWhile_eq_self_iff.mpr fun hv2 => by simp [hl]

theorem pyStrip_self_of_sides {v : PyStr} (hv : v ≠ [])
    (hh : isWs (v.head hv) = false) (hl : isWs (v.getLast hv) = false) :
    pyStrip v = v := by
  have := pyStrip_sandwich [] v [] (by simp) (by simp) hv hh hl
  simpa using this

theorem pyStrip_idem (s : PyStr) : pyStrip (pyStrip s) = pyStrip s := by
  by_cases hempty : pyStrip s = []
  · rw [hempty]; rfl
  · have hd : (s.dropWhile isWs).rdropWhile isWs = pyStrip s := rfl
    have hpre := List.rdropWhile_prefix isWs (s.dropWhile isWs)
    rw [hd] at hpre
    obtain ⟨t, ht⟩ := hpre
    have hhead : isWs ((pyStrip s).head hempty) = false := by
      apply head?_dropWhile_false isWs s
      rw [← ht, List.head?_append, List.head?_eq_head hempty]
      rfl
    have hlast : isWs ((pyStrip s).getLast hempty) = false := by
      have := List.rdropWhile_last_not isWs (s.dropWhile isWs) (by rw [hd]; exact hempty)
      simp only [hd] at this
      exact Bool.not_eq_true _ |>.mp this
    exact pyStrip_self_of_sides hempty hhead hlast

theorem rdropWhile_map {α β : Type} (f : α → β) (p : β → Bool) (l : List α) :
    (l.map f).rdropWhile p = (l.rdropWhile (p ∘ f)).map f := by
  unfold List.rdropWhile
  rw [← List.map_reverse, List.dropWhile_map, List.map_reverse]

theorem pyStrip_pyLower (s : PyStr) : pyStrip (pyLower s) = pyLower (pyStrip s) := by
  have hfun : (isWs ∘ lowerChar) = isWs := funext fun c => lowerChar_isWs c
  unfold pyStrip pyLower
  rw [List.dropWhile_map, hfun, rdropWhile_map, hfun]

theorem parseExitPhrases_shape (raw p : PyStr) (hp : p ∈ parseExitPhrases raw) :
    p ≠ [] ∧ pyStrip p = p ∧ pyLower p = p := by
  unfold parseExitPhrases at hp
  simp only at hp
  split at hp
  · simp only [List.mem_cons, List.not_mem_nil, or_false] at hp
    rcases hp with h | h | h
    · subst h; refine ⟨by decide, by decide, by decide⟩
    · subst h; refine ⟨by decide, by decide, by decide⟩
    · subst h; refine ⟨by decide, by decide, by decide⟩
  · rw [List.mem_map] at hp
    obtain ⟨s, hs, hps⟩ := hp
    rw [List.mem_filter] at hs
    have hne : pyStrip s ≠ [] := by
      have := hs.2
      simpa [List.isEmpty_iff] using this
    refine ⟨?_, ?_, ?_⟩
    · rw [← hps]
      simpa [pyLower] using hne
    · rw [← hps, pyStrip_pyLower, pyStrip_idem]
    · rw [← hps, pyLower_idem]

/-! ## Step lemmas for chat and the run loop -/

theorem chat_fail (hist : List Message) (u : PyStr) (ps : List PyStr) :
    chat hist u (CompletionEvent.fail ps) = (hist, []) := by
  unfold chat
  simp

theorem chat_ok_empty (hist : List Message) (u : PyStr) (parts : List PyStr)
    (h : pyStrip (joinParts parts) = []) :
    chat hist u (CompletionEvent.ok parts) = (hist ++ [⟨Role.user, u⟩], []) := by
  unfold chat
  simp [h]

theorem chat_ok_reply (hist : List Message) (u : PyStr) (parts : List PyStr)
    (h : pyStrip (joinParts parts) ≠ []) :
    chat hist u (CompletionEvent.ok parts)
      = (hist ++ [⟨Role.user, u⟩, ⟨Role.assistant, pyStrip (joinParts parts)⟩],
         pyStrip (joinParts parts)) := by
  unfold chat
  simp [h]

theorem runLoop_at_limit (cfg : AgentConfig) (hist : List Message) (turns : Nat)
    (evs : List IterEvent) (h : continueLoop cfg.maxTurns turns = false) :
    runLoop cfg hist turns evs = RunOutcome.finished hist turns ExitReason.turnLimit := by
  cases evs <;> simp [runLoop, h]

theorem runLoop_interrupted (cfg : AgentConfig) (hist : List Message) (turns : Nat)
    (ev : IterEvent) (rest : List IterEvent)
    (hcont : continueLoop cfg.maxTurns turns = true)
    (hcap : capture_user_input cfg.textOnly ev.tev ev.vev = CaptureResult.interrupted) :
    runLoop cfg hist turns (ev :: rest) = RunOutcome.raisedInterrupt hist turns := by
  simp [runLoop, hcont, hcap]

theorem runLoop_closed (cfg : AgentConfig) (hist : List Message) (turns : Nat)
    (ev : IterEvent) (rest : List IterEvent)
    (hcont : continueLoop cfg.maxTurns turns = true)
    (hcap : capture_user_input cfg.textOnly ev.tev ev.vev = CaptureResult.closed) :
    runLoop cfg hist turns (ev :: rest) = RunOutcome.finished hist turns ExitReason.inputClosed := by
  simp [runLoop, hcont, hcap]

theorem runLoop_skip_empty (cfg : AgentConfig) (hist : List Message) (turns : Nat)
    (ev : IterEvent) (rest : List IterEvent) (s : PyStr)
    (hcont : continueLoop cfg.maxTurns turns = true)
    (hcap : capture_user_input cfg.textOnly ev.tev ev.vev = CaptureResult.text s)
    (hs : pyStrip s = []) :
    runLoop cfg hist turns (ev :: rest) = runLoop cfg hist turns rest := by
  simp [runLoop, hcont, hcap, hs]

theorem runLoop_exit (cfg : AgentConfig) (hist : List Message) (turns : Nat)
    (ev : IterEvent) (rest : List IterEvent) (s : PyStr)
    (hcont : continueLoop cfg.maxTurns turns = true)
    (hcap : capture_user_input cfg.textOnly ev.tev ev.vev = CaptureResult.text s)
    (hne : pyStrip s ≠ [])
    (hmem : pyLower (pyStrip s) ∈ cfg.exitPhrases) :
    runLoop cfg hist turns (ev :: rest) = RunOutcome.finished hist turns ExitReason.userExit := by
  simp [runLoop, hcont, hcap, hne, hmem]

theorem runLoop_chat_step (cfg : AgentConfig) (hist : List Message) (turns : Nat)
    (ev : IterEvent) (rest : List IterEvent) (s : PyStr)
    (hcont : continueLoop cfg.maxTurns turns = true)
    (hcap : capture_user_input cfg.textOnly ev.tev ev.vev = CaptureResult.text s)
    (hne : pyStrip s ≠ [])
    (hnmem : pyLower (pyStrip s) ∉ cfg.exitPhrases) :
    runLoop cfg hist turns (ev :: rest) =
      (if ((chat hist (pyStrip s) ev.cev).2).isEmpty
        then runLoop cfg (chat hist (pyStrip s) ev.cev).1 turns rest
        else runLoop cfg (chat hist (pyStrip s) ev.cev).1 (turns + 1) rest) := by
  simp [runLoop, hcont, hcap, hne, hnmem]

theorem runLoop_completion_fail (cfg : AgentConfig) (hist : List Message) (turns : Nat)
    (ev : IterEvent) (rest : List IterEvent) (s : PyStr) (ps : List PyStr)
    (hcont : continueLoop cfg.maxTurns turns = true)
    (hcap : capture_user_input cfg.textOnly ev.tev ev.vev = CaptureResult.text s)
    (hne : pyStrip s ≠ [])
    (hnmem : pyLower (pyStrip s) ∉ cfg.exitPhrases)
    (hev : ev.cev = CompletionEvent.fail ps) :
    runLoop cfg hist turns (ev :: rest) = runLoop cfg hist turns rest := by
  rw [runLoop_chat_step cfg hist turns ev rest s hcont hcap hne hnmem, hev, chat_fail]
  simp

theorem runLoop_completion_empty (cfg : AgentConfig) (hist : List Message) (turns : Nat)
    (ev : IterEvent) (rest : List IterEvent) (s : PyStr) (parts : List PyStr)
    (hcont : continueLoop cfg.maxTurns turns = true)
    (hcap : capture_user_input cfg.textOnly ev.tev ev.vev = CaptureResult.text s)
    (hne : pyStrip s ≠ [])
    (hnmem : pyLower (pyStrip s) ∉ cfg.exitPhrases)
    (hev : ev.cev = CompletionEvent.ok parts)
    (hrep : pyStrip (joinParts parts) = []) :
    runLoop cfg hist turns (ev :: rest)
      = runLoop cfg (hist ++ [⟨Role.user, pyStrip s⟩]) turns rest := by
  rw [runLoop_chat_step cfg hist turns ev rest s hcont hcap hne hnmem, hev,
    chat_ok_empty hist (pyStrip s) parts hrep]
  simp

theorem runLoop_completion_reply (cfg : AgentConfig) (hist : List Message) (turns : Nat)
    (ev : IterEvent) (rest : List IterEvent) (s : PyStr) (parts : List PyStr)
    (hcont : continueLoop cfg.maxTurns turns = true)
    (hcap : capture_user_input cfg.textOnly ev.tev ev.vev = CaptureResult.text s)
    (hne : pyStrip s ≠ [])
    (hnmem : pyLower (pyStrip s) ∉ cfg.exitPhrases)
    (hev : ev.cev = CompletionEvent.ok parts)
    (hrep : pyStrip (joinParts parts) ≠ []) :
    runLoop cfg hist turns (ev :: rest)
      = runLoop cfg
          (hist ++ [⟨Role.user, pyStrip s⟩, ⟨Role.assistant, pyStrip (joinParts parts)⟩])
          (turns + 1) rest := by
  rw [runLoop_chat_step cfg hist turns ev rest s hcont hcap hne hnmem, hev,
    chat_ok_reply hist (pyStrip s) parts hrep]
  simp [hrep]

/-! ## Fixtures for witnesses and counterexamples -/

/-- Text-mode configuration with no turn limit and exit phrase exit. -/
def cfgTextW : AgentConfig := ⟨true, none, [pyOf "exit"], none⟩

/-- Voice-mode configuration with no turn limit and exit phrase exit. -/
def cfgVoiceW : AgentConfig := ⟨false, none, [pyOf "exit"], none⟩

/-! ## Claim C1 -/

/-- Claim C1 is refuted: in voice mode, when recording fails, the captured
text is the empty string and the iteration produces nothing at all, even
though a line of text input (hello) and a working completion were available.
The turn is skipped, contrary to the claimed text-input fallback within the
same turn. -/
theorem C1_counterexample :
    capture_user_input false (TextEvent.line (pyOf "hello")) VoiceEvent.recFail
      = CaptureResult.text [] ∧
    runLoop cfgVoiceW [] 0
      [⟨TextEvent.line (pyOf "hello"), VoiceEvent.recFail, CompletionEvent.ok [pyOf "hi"]⟩]
      = RunOutcome.finished [] 0 ExitReason.scriptEnd :=
  ⟨by decide, by decide⟩

/-- Claim C1 amended: with text_only false, an iteration in which voice
capture fails, or transcription fails, or transcription returns
empty/whitespace-only text, makes capture_user_input return the empty
string (it never falls back to the line-oriented text input), and run()
skips the turn: history and turn count are unchanged and the loop moves to
the next iteration. -/
theorem C1_voice_failure_skips_turn (cfg : AgentConfig) (hist : List Message) (turns : Nat)
    (ev : IterEvent) (rest : List IterEvent)
    (hmode : cfg.textOnly = false)
    (hcont : continueLoop cfg.maxTurns turns = true)
    (hev : ev.vev = VoiceEvent.recFail ∨ ev.vev = VoiceEvent.recOk TranscribeEvent.svcFail ∨
      ∃ s, ev.vev = VoiceEvent.recOk (TranscribeEvent.svcText s) ∧ pyStrip s = []) :
    capture_user_input cfg.textOnly ev.tev ev.vev = CaptureResult.text [] ∧
    runLoop cfg hist turns (ev :: rest) = runLoop cfg hist turns rest := by
  have hcap : capture_user_input cfg.textOnly ev.tev ev.vev = CaptureResult.text [] := by
    rcases hev with h | h | ⟨s, h, hs⟩
    · simp [capture_user_input, hmode, h]
    · simp [capture_user_input, hmode, h, transcribe]
    · simp [capture_user_input, hmode, h, transcribe, hs]
  exact ⟨hcap, runLoop_skip_empty cfg hist turns ev rest [] hcont hcap rfl⟩

/-- Witness for C1 amended at a concrete voice-mode failure. -/
theorem C1_witness :
    capture_user_input cfgVoiceW.textOnly (TextEvent.line (pyOf "x")) VoiceEvent.recFail
      = CaptureResult.text [] ∧
    runLoop cfgVoiceW [] 0 [⟨TextEvent.line (pyOf "x"), VoiceEvent.recFail, CompletionEvent.ok []⟩]
      = runLoop cfgVoiceW [] 0 [] :=
  C1_voice_failure_skips_turn cfgVoiceW [] 0
    ⟨TextEvent.line (pyOf "x"), VoiceEvent.recFail, CompletionEvent.ok []⟩ [] rfl rfl (Or.inl rfl)

/-! ## Claim C2 -/

/-- Claim C2: completion failure is atomic. For every history, user text
and list of fragments already streamed before the transport fault, chat
returns with the history exactly as it was before the call (the appended
user message is rolled back) and with an empty reply, so no partial
accumulation is ever appended. -/
theorem C2_completion_failure_rollback (hist : List Message) (u : PyStr)
    (partsSoFar : List PyStr) :
    chat hist u (CompletionEvent.fail partsSoFar) = (hist, []) :=
  chat_fail hist u partsSoFar

/-! ## Claim C3 -/

/-- Claim C3 is refuted: a successful completion whose stripped accumulation
is empty leaves the pending user message in history, so history after the
call differs from history before the call. -/
theorem C3_counterexample :
    chat [] (pyOf "hi") (CompletionEvent.ok [pyOf " "]) = ([⟨Role.user, pyOf "hi"⟩], []) ∧
    ([⟨Role.user, pyOf "hi"⟩] : List Message) ≠ [] :=
  ⟨by decide, by decide⟩

/-- Claim C3 amended: when the streaming completion succeeds but the
stripped accumulation of fragments is empty, chat appends no assistant
message and returns the empty reply, but the just-appended user message
remains: the resulting history is the original plus exactly that user
message. -/
theorem C3_empty_completion_keeps_user (hist : List Message) (u : PyStr) (parts : List PyStr)
    (h : pyStrip (joinParts parts) = []) :
    chat hist u (CompletionEvent.ok parts) = (hist ++ [⟨Role.user, u⟩], []) :=
  chat_ok_empty hist u parts h

/-- Witness for C3 amended at a concrete empty completion. -/
theorem C3_witness :
    chat [] (pyOf "yo") (CompletionEvent.ok [])
      = (([] : List Message) ++ [⟨Role.user, pyOf "yo"⟩], []) :=
  C3_empty_completion_keeps_user [] (pyOf "yo") [] (by decide)

/-! ## Claim C7 -/

/-- Claim C7 is refuted: a KeyboardInterrupt during capture makes run()
itself propagate the interrupt to its caller (the outcome is a raised
interrupt, not a normal return), contrary to the claim that run() does not
re-raise. -/
theorem C7_counterexample :
    runLoop cfgVoiceW [] 0 [⟨TextEvent.line [], VoiceEvent.interrupt, CompletionEvent.fail []⟩]
      = RunOutcome.raisedInterrupt [] 0 := by
  decide

/-- Claim C7 amended: a KeyboardInterrupt arriving during capture
propagates out of run() uncaught (run() re-raises it to its caller); main()
catches it and returns normally through its goodbye branch. No synthesizer
cleanup is modelled because run() performs none. -/
theorem C7_interrupt_propagates (cfg : AgentConfig) (ev : IterEvent)
    (hint : capture_user_input cfg.textOnly ev.tev ev.vev = CaptureResult.interrupted) :
    (∀ hist turns rest, continueLoop cfg.maxTurns turns = true →
      runLoop cfg hist turns (ev :: rest) = RunOutcome.raisedInterrupt hist turns) ∧
    (∀ rest, continueLoop cfg.maxTurns 0 = true →
      mainModel cfg (ev :: rest) = MainResult.interruptedGoodbye) := by
  refine ⟨fun hist turns rest hcont => runLoop_interrupted cfg hist turns ev rest hcont hint, ?_⟩
  intro rest hcont
  unfold mainModel
  rw [runLoop_interrupted cfg (initHistory cfg) 0 ev rest hcont hint]

/-- Witness for C7 amended at a concrete interrupt event. -/
theorem C7_witness :
    runLoop cfgVoiceW [] 0 [⟨TextEvent.eof, VoiceEvent.interrupt, CompletionEvent.fail []⟩]
      = RunOutcome.raisedInterrupt [] 0 :=
  (C7_interrupt_propagates cfgVoiceW ⟨TextEvent.eof, VoiceEvent.interrupt, CompletionEvent.fail []⟩
    (by decide)).1 [] 0 [] rfl

/-! ## Claim C10 -/

/-- Claim C10: a failed or empty completion does not consume the turn
budget. In an iteration whose captured text is nonempty and not an exit
phrase, if the completion call fails or returns an empty stripped
accumulation, the loop proceeds to the remaining iterations with the SAME
turn count (only the history may change as chat leaves it). -/
theorem C10_failed_completion_keeps_budget (cfg : AgentConfig) (hist : List Message)
    (turns : Nat) (ev : IterEvent) (rest : List IterEvent) (s : PyStr)
    (hcont : continueLoop cfg.maxTurns turns = true)
    (hcap : capture_user_input cfg.textOnly ev.tev ev.vev = CaptureResult.text s)
    (hne : pyStrip s ≠ [])
    (hnmem : pyLower (pyStrip s) ∉ cfg.exitPhrases)
    (hdeg : (∃ ps, ev.cev = CompletionEvent.fail ps) ∨
            ∃ parts, ev.cev = CompletionEvent.ok parts ∧ pyStrip (joinParts parts) = []) :
    runLoop cfg hist turns (ev :: rest)
      = runLoop cfg (chat hist (pyStrip s) ev.cev).1 turns rest := by
  rcases hdeg with ⟨ps, hev⟩ | ⟨parts, hev, hrep⟩
  · rw [runLoop_completion_fail cfg hist turns ev rest s ps hcont hcap hne hnmem hev, hev,
      chat_fail]
  · rw [runLoop_completion_empty cfg hist turns ev rest s parts hcont hcap hne hnmem hev hrep,
      hev, chat_ok_empty hist (pyStrip s) parts hrep]

/-- Witness for C10 at a concrete failed completion. -/
theorem C10_witness :
    runLoop cfgTextW [] 0 [⟨TextEvent.line (pyOf "hi"), VoiceEvent.recFail, CompletionEvent.fail []⟩]
      = runLoop cfgTextW
          (chat [] (pyStrip (pyOf "hi"))
            (IterEvent.cev ⟨TextEvent.line (pyOf "hi"), VoiceEvent.recFail, CompletionEvent.fail []⟩)).1
          0 [] :=
  C10_failed_completion_keeps_budget cfgTextW [] 0
    ⟨TextEvent.line (pyOf "hi"), VoiceEvent.recFail, CompletionEvent.fail []⟩ [] (pyOf "hi")
    rfl (by decide) (by decide) (by decide) (Or.inl ⟨[], rfl⟩)

/-! ## Claim C9 -/

theorem capture_voice_not_closed (cfg : AgentConfig) (hmode : cfg.textOnly = false)
    (tev : TextEvent) (vev : VoiceEvent) :
    capture_user_input cfg.textOnly tev vev ≠ CaptureResult.closed := by
  rw [hmode]
  unfold capture_user_input
  cases vev <;> simp

theorem runLoop_not_inputClosed (cfg : AgentConfig) (hmode : cfg.textOnly = false) :
    ∀ (evs : List IterEvent) (hist : List Message) (turns : Nat) (h : List Message) (t : Nat),
      runLoop cfg hist turns evs ≠ RunOutcome.finished h t ExitReason.inputClosed := by
  intro evs
  induction evs with
  | nil =>
    intro hist turns h t
    unfold runLoop
    split <;> simp
  | cons ev rest ih =>
    intro hist turns h t
    cases hcont : continueLoop cfg.maxTurns turns with
    | false => rw [runLoop_at_limit cfg hist turns _ hcont]; simp
    | true =>
      cases hc : capture_user_input cfg.textOnly ev.tev ev.vev with
      | interrupted => rw [runLoop_interrupted cfg hist turns ev rest hcont hc]; simp
      | closed => exact absurd hc (capture_voice_not_closed cfg hmode ev.tev ev.vev)
      | text s =>
        by_cases hs : pyStrip s = []
        · rw [runLoop_skip_empty cfg hist turns ev rest s hcont hc hs]
          exact ih hist turns h t
        · by_cases hmem : pyLower (pyStrip s) ∈ cfg.exitPhrases
          · rw [runLoop_exit cfg hist turns ev rest s hcont hc hs hmem]; simp
          · cases hcev : ev.cev with
            | fail ps =>
              rw [runLoop_completion_fail cfg hist turns ev rest s ps hcont hc hs hmem hcev]
              exact ih hist turns h t
            | ok parts =>
              by_cases hrep : pyStrip (joinParts parts) = []
              · rw [runLoop_completion_empty cfg hist turns ev rest s parts
                  hcont hc hs hmem hcev hrep]
                exact ih _ turns h t
              · rw [runLoop_completion_reply cfg hist turns ev rest s parts
                  hcont hc hs hmem hcev hrep]
                exact ih _ _ h t

/-- Claim C9: in voice mode the end-of-input termination branch is
unreachable. capture_user_input with text_only false never returns None
(capture and transcription faults become the empty string), and therefore
no run in voice mode can finish with the end-of-input reason, whatever the
event script. -/
theorem C9_voice_no_end_of_input (cfg : AgentConfig) (hmode : cfg.textOnly = false) :
    (∀ tev vev, capture_user_input cfg.textOnly tev vev ≠ CaptureResult.closed) ∧
    ∀ (hist : List Message) (turns : Nat) (evs : List IterEvent) (h : List Message) (t : Nat),
      runLoop cfg hist turns evs ≠ RunOutcome.finished h t ExitReason.inputClosed :=
  ⟨fun tev vev => capture_voice_not_closed cfg hmode tev vev,
   fun hist turns evs h t => runLoop_not_inputClosed cfg hmode evs hist turns h t⟩

/-- Witness for C9: even when the text stream would report end-of-file, the
voice-mode loop does not reach the end-of-input branch. -/
theorem C9_witness :
    capture_user_input cfgVoiceW.textOnly TextEvent.eof VoiceEvent.recFail
      ≠ CaptureResult.closed ∧
    runLoop cfgVoiceW [] 0 [⟨TextEvent.eof, VoiceEvent.recFail, CompletionEvent.ok []⟩]
      ≠ RunOutcome.finished [] 0 ExitReason.inputClosed :=
  ⟨(C9_voice_no_end_of_input cfgVoiceW rfl).1 TextEvent.eof VoiceEvent.recFail,
   (C9_voice_no_end_of_input cfgVoiceW rfl).2 [] 0
     [⟨TextEvent.eof, VoiceEvent.recFail, CompletionEvent.ok []⟩] [] 0⟩

/-! ## Claim C4 -/

/-- Claim C4 is refuted: after an empty completion (which leaves the user
message in history, see C3) a later successful turn produces two adjacent
user messages. A concrete two-iteration text-mode run reaches the history
user hi, user yo, assistant ok, which has two consecutive user messages. -/
theorem C4_counterexample :
    runLoop cfgTextW [] 0
      [⟨TextEvent.line (pyOf "hi"), VoiceEvent.recFail, CompletionEvent.ok []⟩,
       ⟨TextEvent.line (pyOf "yo"), VoiceEvent.recFail, CompletionEvent.ok [pyOf "ok"]⟩]
      = RunOutcome.finished
          [⟨Role.user, pyOf "hi"⟩, ⟨Role.user, pyOf "yo"⟩, ⟨Role.assistant, pyOf "ok"⟩]
          1 ExitReason.scriptEnd ∧
    ¬ NoConsecUsers
        [⟨Role.user, pyOf "hi"⟩, ⟨Role.user, pyOf "yo"⟩, ⟨Role.assistant, pyOf "ok"⟩] :=
  ⟨by decide, by simp [NoConsecUsers, List.chain'_cons, List.chain'_singleton]⟩

/-- An iteration event whose completion, when it succeeds, has a nonempty
stripped accumulation. -/
def completionWellFormed (ev : IterEvent) : Prop :=
  ∀ parts, ev.cev = CompletionEvent.ok parts → pyStrip (joinParts parts) ≠ []

theorem goodHistory_append_pair (h : List Message) (u r : PyStr) (hg : GoodHistory h) :
    GoodHistory (h ++ [⟨Role.user, u⟩, ⟨Role.assistant, r⟩]) := by
  obtain ⟨hchain, hlast⟩ := hg
  constructor
  · unfold NoConsecUsers at hchain ⊢
    rw [List.chain'_append]
    refine ⟨hchain, by simp [List.chain'_pair], ?_⟩
    intro x hx y hy
    simp only [List.head?_cons, Option.mem_def, Option.some.injEq] at hy
    intro hcon
    exact hlast x hx (by rw [← hy] at hcon; exact hcon.1)
  · intro m hm
    have hform : h ++ [(⟨Role.user, u⟩ : Message), ⟨Role.assistant, r⟩]
        = (h ++ [⟨Role.user, u⟩]) ++ [⟨Role.assistant, r⟩] := by
      simp
    rw [hform, List.getLast?_concat] at hm
    simp only [Option.mem_def, Option.some.injEq] at hm
    rw [← hm]
    simp

theorem runLoop_preserves_goodHistory (cfg : AgentConfig) :
    ∀ (evs : List IterEvent) (hist : List Message) (turns : Nat),
      GoodHistory hist → (∀ ev ∈ evs, completionWellFormed ev) →
      GoodHistory ((runLoop cfg hist turns evs).history) := by
  intro evs
  induction evs with
  | nil =>
    intro hist turns hg _
    unfold runLoop
    split <;> exact hg
  | cons ev rest ih =>
    intro hist turns hg hwf
    have hwfrest : ∀ e ∈ rest, completionWellFormed e := fun e he => hwf e (by simp [he])
    cases hcont : continueLoop cfg.maxTurns turns with
    | false => rw [runLoop_at_limit cfg hist turns _ hcont]; exact hg
    | true =>
      cases hc : capture_user_input cfg.textOnly ev.tev ev.vev with
      | interrupted => rw [runLoop_interrupted cfg hist turns ev rest hcont hc]; exact hg
      | closed => rw [runLoop_closed cfg hist turns ev rest hcont hc]; exact hg
      | text s =>
        by_cases hs : pyStrip s = []
        · rw [runLoop_skip_empty cfg hist turns ev rest s hcont hc hs]
          exact ih hist turns hg hwfrest
        · by_cases hmem : pyLower (pyStrip s) ∈ cfg.exitPhrases
          · rw [runLoop_exit cfg hist turns ev rest s hcont hc hs hmem]; exact hg
          · cases hcev : ev.cev with
            | fail ps =>
              rw [runLoop_completion_fail cfg hist turns ev rest s ps hcont hc hs hmem hcev]
              exact ih hist turns hg hwfrest
            | ok parts =>
              have hrep : pyStrip (joinParts parts) ≠ [] := hwf ev (by simp) parts hcev
              rw [runLoop_completion_reply cfg hist turns ev rest s parts
                hcont hc hs hmem hcev hrep]
              exact ih _ _ (goodHistory_append_pair hist (pyStrip s)
                (pyStrip (joinParts parts)) hg) hwfrest

theorem goodHistory_nil : GoodHistory [] :=
  ⟨List.chain'_nil, fun m hm => by simp at hm⟩

theorem initHistory_good (cfg : AgentConfig) : GoodHistory (initHistory cfg) := by
  unfold initHistory
  cases cfg.systemPrompt with
  | none => exact goodHistory_nil
  | some p =>
    show GoodHistory (if p.isEmpty then [] else [⟨Role.system, p⟩])
    by_cases hp : p.isEmpty
    · rw [if_pos hp]
      exact goodHistory_nil
    · rw [if_neg hp]
      refine ⟨List.chain'_singleton _, fun m hm => ?_⟩
      simp only [List.getLast?_singleton, Option.mem_def, Option.some.injEq] at hm
      rw [← hm]
      simp

/-- Claim C4 amended: the well-formedness invariant (no two consecutive
user messages, last message not a user message) holds of the initial
history and is preserved by the loop from any well-formed state, provided
every completion in the script either fails or returns a nonempty stripped
accumulation. Without that proviso the invariant fails, see the
counterexample. -/
theorem C4_history_wellformed (cfg : AgentConfig) :
    GoodHistory (initHistory cfg) ∧
    ∀ (hist : List Message) (turns : Nat) (evs : List IterEvent),
      GoodHistory hist → (∀ ev ∈ evs, completionWellFormed ev) →
      GoodHistory ((runLoop cfg hist turns evs).history) :=
  ⟨initHistory_good cfg,
   fun hist turns evs => runLoop_preserves_goodHistory cfg evs hist turns⟩

/-- Witness for C4 amended on a concrete well-formed run. -/
theorem C4_witness :
    GoodHistory ((runLoop cfgTextW [] 0
      [⟨TextEvent.line (pyOf "hi"), VoiceEvent.recFail, CompletionEvent.ok [pyOf "ok"]⟩]).history) :=
  (C4_history_wellformed cfgTextW).2 [] 0
    [⟨TextEvent.line (pyOf "hi"), VoiceEvent.recFail, CompletionEvent.ok [pyOf "ok"]⟩]
    ⟨List.chain'_nil, fun m hm => by simp at hm⟩
    (by
      intro ev hev parts hp
      rw [List.mem_singleton] at hev
      subst hev
      cases hp
      decide)

/-! ## Claim C6 -/

/-- An iteration that completes a full turn: capture yields nonempty
non-exit text and the completion returns a nonempty stripped accumulation. -/
def validExchange (cfg : AgentConfig) (ev : IterEvent) : Prop :=
  ∃ s, capture_user_input cfg.textOnly ev.tev ev.vev = CaptureResult.text s ∧
    pyStrip s ≠ [] ∧ pyLower (pyStrip s) ∉ cfg.exitPhrases ∧
    ∃ parts, ev.cev = CompletionEvent.ok parts ∧ pyStrip (joinParts parts) ≠ []

theorem continueLoop_some_false (n turns : Nat) (h : ¬ turns < n) :
    continueLoop (some n) turns = false := by
  simp [continueLoop, h]

theorem continueLoop_some_true (n turns : Nat) (h : turns < n) :
    continueLoop (some n) turns = true := by
  simp [continueLoop, h]

theorem runLoop_turnLimit_count (cfg : AgentConfig) (n : Nat) (hn : cfg.maxTurns = some n) :
    ∀ (evs : List IterEvent) (hist : List Message) (turns : Nat), turns ≤ n →
      ∀ (h : List Message) (t : Nat),
        runLoop cfg hist turns evs = RunOutcome.finished h t ExitReason.turnLimit → t = n := by
  intro evs
  induction evs with
  | nil =>
    intro hist turns hle h t hx
    unfold runLoop at hx
    cases hcont : continueLoop cfg.maxTurns turns with
    | true => rw [hcont] at hx; simp at hx
    | false =>
      rw [hcont] at hx
      simp only [Bool.false_eq_true, if_false, RunOutcome.finished.injEq] at hx
      rw [hn] at hcont
      have hge : ¬ turns < n := by
        intro hlt
        rw [continueLoop_some_true n turns hlt] at hcont
        cases hcont
      omega
  | cons ev rest ih =>
    intro hist turns hle h t
    cases hcont : continueLoop cfg.maxTurns turns with
    | false =>
      rw [runLoop_at_limit cfg hist turns _ hcont]
      intro hx
      rw [RunOutcome.finished.injEq] at hx
      rw [hn] at hcont
      have : ¬ turns < n := by
        intro hlt
        rw [continueLoop_some_true n turns hlt] at hcont
        cases hcont
      omega
    | true =>
      have hlt : turns < n := by
        rw [hn] at hcont
        by_contra hge
        rw [continueLoop_some_false n turns hge] at hcont
        cases hcont
      cases hc : capture_user_input cfg.textOnly ev.tev ev.vev with
      | interrupted =>
        rw [runLoop_interrupted cfg hist turns ev rest hcont hc]
        intro hx
        cases hx
      | closed =>
        rw [runLoop_closed cfg hist turns ev rest hcont hc]
        intro hx
        rw [RunOutcome.finished.injEq] at hx
        exact absurd hx.2.2 (by simp)
      | text s =>
        by_cases hs : pyStrip s = []
        · rw [runLoop_skip_empty cfg hist turns ev rest s hcont hc hs]
          exact ih hist turns hle h t
        · by_cases hmem : pyLower (pyStrip s) ∈ cfg.exitPhrases
          · rw [runLoop_exit cfg hist turns ev rest s hcont hc hs hmem]
            intro hx
            rw [RunOutcome.finished.injEq] at hx
            exact absurd hx.2.2 (by simp)
          · cases hcev : ev.cev with
            | fail ps =>
              rw [runLoop_completion_fail cfg hist turns ev rest s ps hcont hc hs hmem hcev]
              exact ih hist turns hle h t
            | ok parts =>
              by_cases hrep : pyStrip (joinParts parts) = []
              · rw [runLoop_completion_empty cfg hist turns ev rest s parts
                  hcont hc hs hmem hcev hrep]
                exact ih _ turns hle h t
              · rw [runLoop_completion_reply cfg hist turns ev rest s parts
                  hcont hc hs hmem hcev hrep]
                exact ih _ (turns + 1) (by omega) h t

theorem runLoop_valid_exchanges (cfg : AgentConfig) (n : Nat) (hn : cfg.maxTurns = some n) :
    ∀ (evs : List IterEvent) (hist : List Message) (turns : Nat), turns ≤ n →
      n ≤ turns + evs.length → (∀ ev ∈ evs, validExchange cfg ev) →
      ∃ h, runLoop cfg hist turns evs = RunOutcome.finished h n ExitReason.turnLimit := by
  intro evs
  induction evs with
  | nil =>
    intro hist turns h1 h2 _
    have hteq : turns = n := by simp at h2; omega
    subst hteq
    exact ⟨hist, runLoop_at_limit cfg hist turns [] (by
      rw [hn]; exact continueLoop_some_false turns turns (by omega))⟩
  | cons ev rest ih =>
    intro hist turns h1 h2 hv
    by_cases hturn : turns = n
    · subst hturn
      exact ⟨hist, runLoop_at_limit cfg hist turns _ (by
        rw [hn]; exact continueLoop_some_false turns turns (by omega))⟩
    · have hlt : turns < n := lt_of_le_of_ne h1 hturn
      have hcont : continueLoop cfg.maxTurns turns = true := by
        rw [hn]; exact continueLoop_some_true n turns hlt
      obtain ⟨s, hcap, hne, hnmem, parts, hcev, hrep⟩ := hv ev (by simp)
      rw [runLoop_completion_reply cfg hist turns ev rest s parts hcont hcap hne hnmem hcev hrep]
      refine ih _ (turns + 1) (by omega) ?_ (fun e he => hv e (by simp [he]))
      simp at h2 ⊢
      omega

/-- Claim C6: turn-limit termination and counting, for a configured limit
of n turns. (1) Once n turns are completed the loop stops immediately with
the turn-limit reason, regardless of any further scripted inputs. (2) From
any start not past the limit, a turn-limit termination always reports
exactly n turns. (3) An iteration whose captured text strips to empty is
skipped: history and turn count are unchanged. (4) A script of valid
exchanges of length at least n terminates with exactly n counted turns. -/
theorem C6_turn_limit (cfg : AgentConfig) (n : Nat) (hn : cfg.maxTurns = some n) :
    (∀ (hist : List Message) (evs : List IterEvent),
       runLoop cfg hist n evs = RunOutcome.finished hist n ExitReason.turnLimit) ∧
    (∀ (hist : List Message) (turns : Nat) (evs : List IterEvent) (h : List Message) (t : Nat),
       turns ≤ n → runLoop cfg hist turns evs = RunOutcome.finished h t ExitReason.turnLimit →
       t = n) ∧
    (∀ (hist : List Message) (turns : Nat) (ev : IterEvent) (rest : List IterEvent) (s : PyStr),
       continueLoop cfg.maxTurns turns = true →
       capture_user_input cfg.textOnly ev.tev ev.vev = CaptureResult.text s → pyStrip s = [] →
       runLoop cfg hist turns (ev :: rest) = runLoop cfg hist turns rest) ∧
    (∀ (hist : List Message) (evs : List IterEvent),
       (∀ ev ∈ evs, validExchange cfg ev) → n ≤ evs.length →
       ∃ h, runLoop cfg hist 0 evs = RunOutcome.finished h n ExitReason.turnLimit) := by
  refine ⟨?_, ?_, ?_, ?_⟩
  · intro hist evs
    exact runLoop_at_limit cfg hist n evs (by
      rw [hn]; exact continueLoop_some_false n n (by omega))
  · intro hist turns evs h t hle hx
    exact runLoop_turnLimit_count cfg n hn evs hist turns hle h t hx
  · intro hist turns ev rest s hcont hcap hs
    exact runLoop_skip_empty cfg hist turns ev rest s hcont hcap hs
  · intro hist evs hv hlen
    exact runLoop_valid_exchanges cfg n hn evs hist 0 (by omega) (by omega) hv

/-- Text-mode configuration with a limit of two turns. -/
def cfgTwoTurns : AgentConfig := ⟨true, some 2, [pyOf "exit"], none⟩

/-- Witness for C6: with a limit of 2 and two valid exchanges the loop
finishes with exactly 2 counted turns. -/
theorem C6_witness :
    ∃ h, runLoop cfgTwoTurns [] 0
      [⟨TextEvent.line (pyOf "a"), VoiceEvent.recFail, CompletionEvent.ok [pyOf "ra"]⟩,
       ⟨TextEvent.line (pyOf "b"), VoiceEvent.recFail, CompletionEvent.ok [pyOf "rb"]⟩]
      = RunOutcome.finished h 2 ExitReason.turnLimit :=
  (C6_turn_limit cfgTwoTurns 2 rfl).2.2.2 []
    [⟨TextEvent.line (pyOf "a"), VoiceEvent.recFail, CompletionEvent.ok [pyOf "ra"]⟩,
     ⟨TextEvent.line (pyOf "b"), VoiceEvent.recFail, CompletionEvent.ok [pyOf "rb"]⟩]
    (by
      intro ev hev
      simp only [List.mem_cons, List.not_mem_nil, or_false] at hev
      rcases hev with h | h
      · subst h
        exact ⟨pyOf "a", by decide, by decide, by decide, [pyOf "ra"], rfl, by decide⟩
      · subst h
        exact ⟨pyOf "b", by decide, by decide, by decide, [pyOf "rb"], rfl, by decide⟩)
    (by decide)

/-! ## Claim C5 -/

theorem getLast?_map_eq {α β : Type} (f : α → β) (l : List α) :
    (l.map f).getLast? = l.getLast?.map f := by
  rw [← List.head?_reverse, ← List.map_reverse, List.head?_map, List.head?_reverse]

theorem pyStrip_head?_not_ws {s : PyStr} (h : pyStrip s = s) {c : Nat}
    (hc : s.head? = some c) : isWs c = false := by
  have hs : s ≠ [] := by intro hx; rw [hx] at hc; cases hc
  rw [List.head?_eq_head hs] at hc
  cases hc
  exact pyStrip_head_not_ws h hs

theorem pyStrip_getLast?_not_ws {s : PyStr} (h : pyStrip s = s) {c : Nat}
    (hc : s.getLast? = some c) : isWs c = false := by
  have hs : s ≠ [] := by intro hx; rw [hx] at hc; cases hc
  rw [List.getLast?_eq_getLast s hs] at hc
  cases hc
  exact pyStrip_getLast_not_ws h hs

/-- Claim C5: exit-phrase termination. For every configured exit phrase p
(as produced by from_env from a raw environment value) and every captured
input equal to a case variation v of p surrounded by whitespace, the loop
terminates in that iteration with the user-exit reason, with history and
turn count untouched and without the completion event playing any role.
The hypothesis covers both modes: in text mode the line read is u, in
voice mode the transcription service returns u. -/
theorem C5_exit_phrase (cfg : AgentConfig) (raw p u w1 v w2 : PyStr)
    (hconf : cfg.exitPhrases = parseExitPhrases raw)
    (hp : p ∈ cfg.exitPhrases)
    (hu : u = w1 ++ v ++ w2)
    (hw1 : ∀ c ∈ w1, isWs c = true)
    (hw2 : ∀ c ∈ w2, isWs c = true)
    (hcase : pyLower v = pyLower p)
    (hist : List Message) (turns : Nat) (ev : IterEvent) (rest : List IterEvent)
    (hcont : continueLoop cfg.maxTurns turns = true)
    (hcap : (cfg.textOnly = true ∧ ev.tev = TextEvent.line u) ∨
            (cfg.textOnly = false ∧ ev.vev = VoiceEvent.recOk (TranscribeEvent.svcText u))) :
    runLoop cfg hist turns (ev :: rest) = RunOutcome.finished hist turns ExitReason.userExit := by
  obtain ⟨hpne, hpstrip, hplower⟩ := parseExitPhrases_shape raw p (hconf ▸ hp)
  have hlow : pyLower v = p := by rw [hcase, hplower]
  have hvne : v ≠ [] := by
    intro hx
    rw [hx] at hlow
    exact hpne hlow.symm
  have hhead : isWs (v.head hvne) = false := by
    have h1 : p.head? = some (lowerChar (v.head hvne)) := by
      rw [← hlow]
      unfold pyLower
      rw [List.head?_map, List.head?_eq_head hvne]
      rfl
    have h2 := pyStrip_head?_not_ws hpstrip h1
    rw [lowerChar_isWs] at h2
    exact h2
  have hlast : isWs (v.getLast hvne) = false := by
    have h1 : p.getLast? = some (lowerChar (v.getLast hvne)) := by
      rw [← hlow]
      unfold pyLower
      rw [getLast?_map_eq, List.getLast?_eq_getLast v hvne]
      rfl
    have h2 := pyStrip_getLast?_not_ws hpstrip h1
    rw [lowerChar_isWs] at h2
    exact h2
  have hstrip_u : pyStrip u = v := by
    rw [hu]
    exact pyStrip_sandwich w1 v w2 hw1 hw2 hvne hhead hlast
  have hstrip_v : pyStrip v = v := pyStrip_self_of_sides hvne hhead hlast
  have hcapv : capture_user_input cfg.textOnly ev.tev ev.vev = CaptureResult.text v := by
    rcases hcap with ⟨hm, ht⟩ | ⟨hm, hv⟩
    · simp [capture_user_input, hm, ht, hstrip_u]
    · simp [capture_user_input, hm, hv, transcribe, hstrip_u]
  apply runLoop_exit cfg hist turns ev rest v hcont hcapv
  · rw [hstrip_v]; exact hvne
  · rw [hstrip_v, hlow]; exact hp

/-- Witness for C5: a concrete case variation of a configured phrase with
surrounding whitespace ends a text-mode session. -/
theorem C5_witness :
    runLoop ⟨true, none, parseExitPhrases (pyOf "exit,quit"), none⟩ [] 0
      [⟨TextEvent.line (pyOf "  ExIt "), VoiceEvent.recFail, CompletionEvent.ok [pyOf "x"]⟩]
      = RunOutcome.finished [] 0 ExitReason.userExit :=
  C5_exit_phrase ⟨true, none, parseExitPhrases (pyOf "exit,quit"), none⟩
    (pyOf "exit,quit") (pyOf "exit") (pyOf "  ExIt ")
    [32, 32] (pyOf "ExIt") [32]
    rfl (by decide) (by decide) (by decide) (by decide) (by decide)
    [] 0 ⟨TextEvent.line (pyOf "  ExIt "), VoiceEvent.recFail, CompletionEvent.ok [pyOf "x"]⟩ []
    rfl (Or.inl ⟨rfl, rfl⟩)

/-! ## Claim C8 -/

theorem truncZ_err (q : ℚ) : |q - (truncZ q : ℚ)| < 1 := by
  unfold truncZ
  split
  · next h =>
    rw [abs_of_nonneg (sub_nonneg.mpr (Int.floor_le q))]
    have := Int.sub_one_lt_floor q
    linarith
  · next h =>
    rw [abs_of_nonpos (sub_nonpos.mpr (Int.le_ceil q))]
    have := Int.ceil_lt_add_one q
    linarith

theorem truncZ_range (q : ℚ) (h1 : -32767 ≤ q) (h2 : q ≤ 32767) :
    -32767 ≤ truncZ q ∧ truncZ q ≤ 32767 := by
  unfold truncZ
  split
  · next h =>
    constructor
    · have : (0 : Int) ≤ ⌊q⌋ := Int.floor_nonneg.mpr h
      omega
    · have := Int.floor_le_floor h2
      rwa [show ⌊(32767 : ℚ)⌋ = 32767 by norm_num] at this
  · next h =>
    constructor
    · have hcast : ⌈(-32767 : ℚ)⌉ = -32767 := by
        rw [show ((-32767 : ℚ)) = ((-32767 : ℤ) : ℚ) by norm_num]
        exact Int.ceil_intCast _
      have := Int.ceil_le_ceil h1
      rwa [hcast] at this
    · have hq : q ≤ 0 := le_of_lt (lt_of_not_ge h)
      have : ⌈q⌉ ≤ ⌈(0 : ℚ)⌉ := Int.ceil_le_ceil hq
      rw [Int.ceil_zero] at this
      omega

theorem encodeSample_range (x : ℚ) (h1 : -1 ≤ x) (h2 : x ≤ 1) :
    -32767 ≤ encodeSample x ∧ encodeSample x ≤ 32767 := by
  unfold encodeSample
  apply truncZ_range <;> nlinarith

theorem unpackInt16_packInt16 (i : Int) (h1 : -32768 ≤ i) (h2 : i < 32768) :
    unpackInt16 ((i % 65536).toNat % 256) ((i % 65536).toNat / 256) = i := by
  unfold unpackInt16
  split <;> omega

theorem decodePCM_cons (lo hi : Nat) (rest : List Nat) :
    decodePCM (lo :: hi :: rest) = unpackInt16 lo hi :: decodePCM rest := rfl

theorem decodePCM_pack (i : Int) (rest : List Nat) (h1 : -32768 ≤ i) (h2 : i < 32768) :
    decodePCM (packInt16 i ++ rest) = i :: decodePCM rest := by
  show decodePCM ((i % 65536).toNat % 256 :: (i % 65536).toNat / 256 :: rest)
    = i :: decodePCM rest
  rw [decodePCM_cons, unpackInt16_packInt16 i h1 h2]

theorem decodePCM_encodePCM (xs : List ℚ) (hx : ∀ x ∈ xs, -1 ≤ x ∧ x ≤ 1) :
    decodePCM (encodePCM xs) = xs.map encodeSample := by
  induction xs with
  | nil => rfl
  | cons x rest ih =>
    have hrange := encodeSample_range x (hx x (by simp)).1 (hx x (by simp)).2
    unfold encodePCM
    rw [List.map_cons, List.flatMap_cons,
      decodePCM_pack (encodeSample x) _ (by omega) (by omega)]
    exact congrArg (List.cons (encodeSample x)) (ih fun y hy => hx y (by simp [hy]))

theorem roundtrip_err (x : ℚ) (h1 : -1 ≤ x) (h2 : x ≤ 1) :
    |x - decodeSample (encodeSample x)| ≤ 1 / 32767 := by
  unfold decodeSample encodeSample
  have herr := truncZ_err (x * 32767)
  rw [show x - (truncZ (x * 32767) : ℚ) / 32767
      = (x * 32767 - (truncZ (x * 32767) : ℚ)) / 32767 by ring]
  rw [abs_div, abs_of_pos (show (0 : ℚ) < 32767 by norm_num)]
  exact (div_le_div_iff_of_pos_right (by norm_num)).mpr (le_of_lt herr)

/-- Claim C8: the PCM encoding of VoiceAgent.transcribe, modelled with
exact rational arithmetic, scales each sample in range by 32767, truncates
toward zero to a signed 16-bit value and packs it little-endian; decoding
the packed payload recovers exactly the truncated samples, and dividing by
32767 reproduces every original sample within 1/32767. Determinism holds
because encodePCM is a function of the sample list alone. -/
theorem C8_encode_roundtrip (xs : List ℚ) (hx : ∀ x ∈ xs, -1 ≤ x ∧ x ≤ 1) :
    decodePCM (encodePCM xs) = xs.map encodeSample ∧
    List.Forall₂ (fun x t => |x - decodeSample t| ≤ 1 / 32767) xs
      (decodePCM (encodePCM xs)) := by
  have hdec := decodePCM_encodePCM xs hx
  refine ⟨hdec, ?_⟩
  rw [hdec, List.forall₂_map_right_iff]
  apply List.forall₂_same.mpr
  intro x hxm
  exact roundtrip_err x (hx x hxm).1 (hx x hxm).2

/-- Witness for C8 at the concrete sample list 1/2, -1, 0, 1. -/
theorem C8_witness :
    decodePCM (encodePCM [1/2, -1, 0, 1])
      = List.map encodeSample [1/2, -1, 0, 1] ∧
    List.Forall₂ (fun x t => |x - decodeSample t| ≤ 1 / 32767) [1/2, -1, 0, 1]
      (decodePCM (encodePCM [1/2, -1, 0, 1])) :=
  C8_encode_roundtrip [1/2, -1, 0, 1] (by
    intro x hx
    simp only [List.mem_cons, List.not_mem_nil, or_false] at hx
    rcases hx with h | h | h | h <;> rw [h] <;> norm_num)
